import Mathlib

/-!
Verification of the gophkeeper storage core: the in-memory Persistence Port
backend (`MemStore`), the Confidentiality Decorator (`EncryptedStore`), the
AES-256-GCM envelope layer (`Encryptor`), and the JWT issuer/verifier
(`JWTManager`), shallowly embedded from the Go sources.

Conventions of the embedding:
* Go byte slices are `List Nat`; Go maps are association lists with Go map
  semantics (`mapGet`, `mapPut`).
* The ambient `context.Context` is `Ctx`: only its `Err()` view matters here.
* Randomness (the fresh GCM nonce) is an explicit argument to the encrypting
  operations.
* The AES-GCM primitive of Go's `crypto/cipher` is modelled by an executable
  idealized AEAD (`gcmSeal`/`gcmOpen`): keystream-XOR ciphertext plus a
  16-byte tag over (key, nonce, ciphertext), with `Open (Seal pt) = pt` and
  failure exactly on tag mismatch or a too-short input — the library's
  documented contract.  Envelope layout (12-byte nonce prepended, 16-byte tag
  appended) matches the source.
* Each Confidentiality Decorator operation also returns the list of
  cryptographic calls it performed (`CryptoEvent`), so that "no cryptographic
  work is done" is an observable statement.
-/

deriving instance DecidableEq for Except

namespace Gophkeeper

/-- Go `[]byte`. -/
abbrev Bytes := List Nat

/-- `models.SecretType` (0=login/password, 1=text, 2=binary, 3=bank card). -/
inductive SecretType
  | loginPassword
  | textData
  | binaryData
  | bankCard
deriving DecidableEq

/-- `models.User`. -/
structure User where
  ID : Nat
  Login : String
  Password : String
deriving DecidableEq

/-- `models.Secret` (the Go field `Type` is rendered `SType`). -/
structure Secret where
  ID : Nat
  UserID : Nat
  SType : SecretType
  Data : Bytes
  Metadata : String
deriving DecidableEq

/-! ## Crypto layer (`server/internal/crypto/encryption.go`) -/

/-- GCM standard nonce size in bytes (`gcm.NonceSize()`). -/
def gcmNonceSize : Nat := 12

/-- GCM authentication-tag size in bytes (`gcm.Overhead()`). -/
def gcmTagSize : Nat := 16

/-- Model keystream byte `i` of AES-CTR under (key, nonce): an arbitrary
executable function; only its determinism matters. -/
def ksByte (key nonce : Bytes) (i : Nat) : Nat :=
  (key.foldl (fun a b => a * 131 + b) 7 +
    nonce.foldl (fun a b => a * 257 + b) 11 + i * 31) % 256

/-- XOR a byte string against the keystream starting at index `i`. -/
def xorKs (key nonce : Bytes) : Nat → Bytes → Bytes
  | _, [] => []
  | i, b :: bs => (b ^^^ ksByte key nonce i) :: xorKs key nonce (i + 1) bs

/-- Model of the 16-byte GCM authentication tag over (key, nonce, ciphertext). -/
def gcmTag (key nonce ct : Bytes) : Bytes :=
  (List.range gcmTagSize).map (fun j =>
    (key.foldl (fun a b => a * 131 + b) 3 +
      nonce.foldl (fun a b => a * 257 + b) 5 +
      ct.foldl (fun a b => a * 263 + b) 9 + j * 17) % 256)

/-- Model of `gcm.Seal(nil, nonce, pt, nil)`: ciphertext followed by tag. -/
def gcmSeal (key nonce pt : Bytes) : Bytes :=
  let ct := xorKs key nonce 0 pt
  ct ++ gcmTag key nonce ct

/-- Model of `gcm.Open(nil, nonce, ctag, nil)`: fails when the input cannot
hold a tag or when the tag does not authenticate. -/
def gcmOpen (key nonce ctag : Bytes) : Option Bytes :=
  if ctag.length < gcmTagSize then none
  else
    let ct := ctag.take (ctag.length - gcmTagSize)
    let tag := ctag.drop (ctag.length - gcmTagSize)
    if tag = gcmTag key nonce ct then some (xorKs key nonce 0 ct) else none

/-- Error conditions of the crypto layer, one per `fmt.Errorf` site. -/
inductive CryptoErr
  | emptyKey
  | emptyPlaintext
  | emptyCiphertext
  | tooShort
  | openFailed
deriving DecidableEq

/-- `crypto.Encryptor`. -/
structure Encryptor where
  key : Bytes
deriving DecidableEq

/-- Byte view of a Go string (ASCII-faithful). -/
def strBytes (s : String) : Bytes := s.toList.map Char.toNat

/-- Key normalization inside `NewEncryptor`: `copy` into 32 zero bytes, i.e.
truncate or right-pad the key bytes to exactly 32. -/
def normalizeKey (keyBytes : Bytes) : Bytes :=
  if keyBytes.length = 32 then keyBytes
  else (keyBytes ++ List.replicate 32 0).take 32

/-- `crypto.NewEncryptor`. -/
def NewEncryptor (key : String) : Except CryptoErr Encryptor :=
  if key = "" then .error .emptyKey
  else .ok ⟨normalizeKey (strBytes key)⟩

/-- `Encryptor.Encrypt`: reject empty plaintext, then
`gcm.Seal(nonce, nonce, plaintext, nil)` — the fresh nonce is prepended. -/
def Encryptor.Encrypt (e : Encryptor) (nonce plaintext : Bytes) :
    Except CryptoErr Bytes :=
  if plaintext.length = 0 then .error .emptyPlaintext
  else .ok (nonce ++ gcmSeal e.key nonce plaintext)

/-- `Encryptor.Decrypt`: reject empty input, reject input shorter than the
nonce, split off the nonce, then `gcm.Open`. -/
def Encryptor.Decrypt (e : Encryptor) (ciphertext : Bytes) :
    Except CryptoErr Bytes :=
  if ciphertext.length = 0 then .error .emptyCiphertext
  else if ciphertext.length < gcmNonceSize then .error .tooShort
  else
    match gcmOpen e.key (ciphertext.take gcmNonceSize)
        (ciphertext.drop gcmNonceSize) with
    | some pt => .ok pt
    | none => .error .openFailed

/-! ## Errors and request context (`storage` errors, `context.Context`) -/

/-- The typed error taxonomy of the storage layer: the two `context` errors,
the three `storage.Err*` types, the JWT validation failure, and a wrapped
crypto-layer failure (`fmt.Errorf("failed to ...: %w", err)` keeps the crypto
cause inspectable). -/
inductive Err
  | canceled
  | deadlineExceeded
  | userExists (login : String)
  | userNotFound (login : String)
  | secretNotFound (id : Nat)
  | invalidToken
  | crypto (e : CryptoErr)
deriving DecidableEq

/-- The view of `context.Context` the storage layer uses: `ctx.Err()`. -/
inductive Ctx
  | live
  | canceledCtx
  | deadlineCtx
deriving DecidableEq

/-- `ctx.Err()`: `nil` on a live context, otherwise the cancellation error. -/
def Ctx.err : Ctx → Option Err
  | .live => none
  | .canceledCtx => some .canceled
  | .deadlineCtx => some .deadlineExceeded

/-! ## Go map model -/

/-- Go map lookup `m[k]` (`ok` flag rendered as `Option`). -/
def mapGet [DecidableEq α] (m : List (α × β)) (k : α) : Option β :=
  match m with
  | [] => none
  | (k2, v) :: rest => if k2 = k then some v else mapGet rest k

/-- Go map assignment `m[k] = v`. -/
def mapPut [DecidableEq α] (m : List (α × β)) (k : α) (v : β) :
    List (α × β) :=
  match m with
  | [] => [(k, v)]
  | (k2, v2) :: rest =>
    if k2 = k then (k2, v) :: rest else (k2, v2) :: mapPut rest k v

/-! ## In-memory backend (`storage.MemStore`, `filestore.go`)

Each operation takes the state and returns `(result, state)`; the source's
mutex discipline serializes operations, so this sequential state-passing view
is the observable semantics. -/

/-- `storage.MemStore`. -/
structure MemStore where
  users : List (String × User)
  secrets : List (Nat × List Secret)
  nextUserID : Nat
  nextSecretID : Nat
deriving DecidableEq

/-- `storage.NewMemStore`. -/
def NewMemStore : MemStore := ⟨[], [], 1, 1⟩

/-- `MemStore.CreateUser`. -/
def MemStore.CreateUser (s : MemStore) (ctx : Ctx) (user : User) :
    Except Err User × MemStore :=
  match ctx.err with
  | some e => (.error e, s)
  | none =>
    match mapGet s.users user.Login with
    | some _ => (.error (.userExists user.Login), s)
    | none =>
      let u := { user with ID := s.nextUserID }
      (.ok u, { s with users := mapPut s.users user.Login u,
                       nextUserID := s.nextUserID + 1 })

/-- `MemStore.GetUserByLogin`. -/
def MemStore.GetUserByLogin (s : MemStore) (ctx : Ctx) (login : String) :
    Except Err User × MemStore :=
  match ctx.err with
  | some e => (.error e, s)
  | none =>
    match mapGet s.users login with
    | some u => (.ok u, s)
    | none => (.error (.userNotFound login), s)

/-- `MemStore.CreateSecret`: assigns the next id and appends to the owner's
slice (`append` on a missing key starts from the empty slice). -/
def MemStore.CreateSecret (s : MemStore) (ctx : Ctx) (secret : Secret) :
    Except Err Secret × MemStore :=
  match ctx.err with
  | some e => (.error e, s)
  | none =>
    let sec := { secret with ID := s.nextSecretID }
    let old := (mapGet s.secrets secret.UserID).getD []
    (.ok sec, { s with secrets := mapPut s.secrets secret.UserID (old ++ [sec]),
                       nextSecretID := s.nextSecretID + 1 })

/-- `MemStore.GetSecrets`: the owner's slice, or the empty slice. -/
def MemStore.GetSecrets (s : MemStore) (ctx : Ctx) (userID : Nat) :
    Except Err (List Secret) × MemStore :=
  match ctx.err with
  | some e => (.error e, s)
  | none =>
    match mapGet s.secrets userID with
    | some l => (.ok l, s)
    | none => (.ok [], s)

/-- The linear scan of the owner's slice for a matching id. -/
def findSecret : List Secret → Nat → Option Secret
  | [], _ => none
  | sec :: rest, sid => if sec.ID = sid then some sec else findSecret rest sid

/-- `MemStore.GetSecretByID`: scan only the acting user's slice; anything else
is `ErrSecretNotFound`. -/
def MemStore.GetSecretByID (s : MemStore) (ctx : Ctx) (userID secretID : Nat) :
    Except Err Secret × MemStore :=
  match ctx.err with
  | some e => (.error e, s)
  | none =>
    match mapGet s.secrets userID with
    | some l =>
      match findSecret l secretID with
      | some sec => (.ok sec, s)
      | none => (.error (.secretNotFound secretID), s)
    | none => (.error (.secretNotFound secretID), s)

/-- Replace the first element of the slice whose id matches; `none` when no
element matches (the `ErrSecretNotFound` path of `UpdateSecret`). -/
def updateSecretInList : List Secret → Secret → Option (List Secret)
  | [], _ => none
  | sec :: rest, new =>
    if sec.ID = new.ID then some (new :: rest)
    else
      match updateSecretInList rest new with
      | some rest2 => some (sec :: rest2)
      | none => none

/-- `MemStore.UpdateSecret`. -/
def MemStore.UpdateSecret (s : MemStore) (ctx : Ctx) (secret : Secret) :
    Except Err Secret × MemStore :=
  match ctx.err with
  | some e => (.error e, s)
  | none =>
    match mapGet s.secrets secret.UserID with
    | some l =>
      match updateSecretInList l secret with
      | some l2 =>
        (.ok secret, { s with secrets := mapPut s.secrets secret.UserID l2 })
      | none => (.error (.secretNotFound secret.ID), s)
    | none => (.error (.secretNotFound secret.ID), s)

/-- Remove the first element of the slice whose id matches; `none` when no
element matches (the `ErrSecretNotFound` path of `DeleteSecret`). -/
def deleteSecretInList : List Secret → Nat → Option (List Secret)
  | [], _ => none
  | sec :: rest, sid =>
    if sec.ID = sid then some rest
    else
      match deleteSecretInList rest sid with
      | some rest2 => some (sec :: rest2)
      | none => none

/-- `MemStore.DeleteSecret`. -/
def MemStore.DeleteSecret (s : MemStore) (ctx : Ctx) (userID secretID : Nat) :
    Except Err Unit × MemStore :=
  match ctx.err with
  | some e => (.error e, s)
  | none =>
    match mapGet s.secrets userID with
    | some l =>
      match deleteSecretInList l secretID with
      | some l2 =>
        (.ok (), { s with secrets := mapPut s.secrets userID l2 })
      | none => (.error (.secretNotFound secretID), s)
    | none => (.error (.secretNotFound secretID), s)

/-! ## Persistence Port (`storage.Store` interface) -/

/-- The `storage.Store` interface over a backend state type `σ`.  The extra
`SecretsSliceWriteBack` member is not a Go method: it is the embedding of
Go's slice aliasing — the state the backend is left in when a caller
overwrites the elements of the slice returned by `GetSecrets userID` with
the given new contents (the decorator's loop mutates that slice in place). -/
structure StoreOps (σ : Type) where
  CreateUser : σ → Ctx → User → Except Err User × σ
  GetUserByLogin : σ → Ctx → String → Except Err User × σ
  CreateSecret : σ → Ctx → Secret → Except Err Secret × σ
  GetSecrets : σ → Ctx → Nat → Except Err (List Secret) × σ
  GetSecretByID : σ → Ctx → Nat → Nat → Except Err Secret × σ
  UpdateSecret : σ → Ctx → Secret → Except Err Secret × σ
  DeleteSecret : σ → Ctx → Nat → Nat → Except Err Unit × σ
  SecretsSliceWriteBack : σ → Nat → List Secret → σ

/-- `MemStore` as an implementation of the port.  `GetSecrets` returns the
very slice stored in the `secrets` map, so writing through it replaces the
owner's stored slice contents. -/
def memStoreOps : StoreOps MemStore where
  CreateUser := MemStore.CreateUser
  GetUserByLogin := MemStore.GetUserByLogin
  CreateSecret := MemStore.CreateSecret
  GetSecrets := MemStore.GetSecrets
  GetSecretByID := MemStore.GetSecretByID
  UpdateSecret := MemStore.UpdateSecret
  DeleteSecret := MemStore.DeleteSecret
  SecretsSliceWriteBack := fun s userID l =>
    { s with secrets := mapPut s.secrets userID l }

/-! ## Confidentiality Decorator (`storage.EncryptedStore`)

Every operation additionally reports the cryptographic calls it made, so
claims about "no cryptographic work" are statable. -/

/-- A cryptographic call performed by the decorator. -/
inductive CryptoEvent
  | encryptEv
  | decryptEv
deriving DecidableEq

/-- `storage.EncryptedStore`: a backing port plus an optional encryptor. -/
structure EncryptedStore (σ : Type) where
  store : StoreOps σ
  encryptor : Option Encryptor

/-- `storage.NewEncryptedStore`: with an empty key the encryptor stays `nil`
(encryption disabled); otherwise it is built by `NewEncryptor`. -/
def NewEncryptedStore (store : StoreOps σ) (encryptionKey : String) :
    Except CryptoErr (EncryptedStore σ) :=
  if encryptionKey = "" then .ok ⟨store, none⟩
  else
    match NewEncryptor encryptionKey with
    | .error e => .error e
    | .ok enc => .ok ⟨store, some enc⟩

/-- `EncryptedStore.CreateUser`: pure pass-through. -/
def EncryptedStore.CreateUser (es : EncryptedStore σ) (s : σ) (ctx : Ctx)
    (user : User) : Except Err User × σ × List CryptoEvent :=
  let r := es.store.CreateUser s ctx user
  (r.1, r.2, [])

/-- `EncryptedStore.GetUserByLogin`: pure pass-through. -/
def EncryptedStore.GetUserByLogin (es : EncryptedStore σ) (s : σ) (ctx : Ctx)
    (login : String) : Except Err User × σ × List CryptoEvent :=
  let r := es.store.GetUserByLogin s ctx login
  (r.1, r.2, [])

/-- `EncryptedStore.CreateSecret`: when an encryptor is present and the
payload is non-empty, encrypt (fresh `nonce`) before delegating; an encryption
failure returns the zero secret and the wrapped error without delegating. -/
def EncryptedStore.CreateSecret (es : EncryptedStore σ) (s : σ) (ctx : Ctx)
    (nonce : Bytes) (secret : Secret) :
    Except Err Secret × σ × List CryptoEvent :=
  match es.encryptor with
  | some enc =>
    if 0 < secret.Data.length then
      match enc.Encrypt nonce secret.Data with
      | .error e => (.error (.crypto e), s, [.encryptEv])
      | .ok encryptedData =>
        let r := es.store.CreateSecret s ctx { secret with Data := encryptedData }
        (r.1, r.2, [.encryptEv])
    else
      let r := es.store.CreateSecret s ctx secret
      (r.1, r.2, [])
  | none =>
    let r := es.store.CreateSecret s ctx secret
    (r.1, r.2, [])

/-- One iteration of the decryption loop shared by `GetSecrets` and
`GetSecretByID`: decrypt a non-empty payload when an encryptor is present. -/
def decryptOne (enc? : Option Encryptor) (secret : Secret) :
    Except Err Secret × List CryptoEvent :=
  match enc? with
  | some enc =>
    if 0 < secret.Data.length then
      match enc.Decrypt secret.Data with
      | .error e => (.error (.crypto e), [.decryptEv])
      | .ok decryptedData => (.ok { secret with Data := decryptedData }, [.decryptEv])
    else (.ok secret, [])
  | none => (.ok secret, [])

/-- The `for i := range secrets` loop of `EncryptedStore.GetSecrets`: the
first decryption failure aborts the whole call.  Besides the result and the
crypto events, it returns the final contents of the slice being walked
(each success executes `secrets[i].Data = decryptedData` in place, so on an
abort the already-visited elements stay decrypted) and whether any such
in-place assignment was executed at all. -/
def decryptLoop (enc? : Option Encryptor) :
    List Secret →
      Except Err (List Secret) × List Secret × Bool × List CryptoEvent
  | [] => (.ok [], [], false, [])
  | sec :: rest =>
    match decryptOne enc? sec with
    | (.error e, ev) => (.error e, sec :: rest, false, ev)
    | (.ok sec2, ev) =>
      match decryptLoop enc? rest with
      | (.error e, rest2, w, evs) =>
        (.error e, sec2 :: rest2, (w || !ev.isEmpty), ev ++ evs)
      | (.ok restOk, rest2, w, evs) =>
        (.ok (sec2 :: restOk), sec2 :: rest2, (w || !ev.isEmpty), ev ++ evs)

/-- `EncryptedStore.GetSecrets`: delegate, then decrypt each secret in the
returned slice in place.  Because that slice may alias the backend's own
storage (it does for `MemStore`), any executed assignment is reflected into
the backend state through `SecretsSliceWriteBack`. -/
def EncryptedStore.GetSecrets (es : EncryptedStore σ) (s : σ) (ctx : Ctx)
    (userID : Nat) : Except Err (List Secret) × σ × List CryptoEvent :=
  let r := es.store.GetSecrets s ctx userID
  match r.1 with
  | .error e => (.error e, r.2, [])
  | .ok secrets =>
    match decryptLoop es.encryptor secrets with
    | (res, written, wrote, evs) =>
      let s2 := if wrote then es.store.SecretsSliceWriteBack r.2 userID written
                else r.2
      match res with
      | .error e => (.error e, s2, evs)
      | .ok secrets2 => (.ok secrets2, s2, evs)

/-- `EncryptedStore.GetSecretByID`: delegate, then decrypt the payload. -/
def EncryptedStore.GetSecretByID (es : EncryptedStore σ) (s : σ) (ctx : Ctx)
    (userID secretID : Nat) : Except Err Secret × σ × List CryptoEvent :=
  let r := es.store.GetSecretByID s ctx userID secretID
  match r.1 with
  | .error e => (.error e, r.2, [])
  | .ok secret =>
    match decryptOne es.encryptor secret with
    | (.error e, ev) => (.error e, r.2, ev)
    | (.ok secret2, ev) => (.ok secret2, r.2, ev)

/-- `EncryptedStore.UpdateSecret`: same encrypt-then-delegate shape as
`CreateSecret`. -/
def EncryptedStore.UpdateSecret (es : EncryptedStore σ) (s : σ) (ctx : Ctx)
    (nonce : Bytes) (secret : Secret) :
    Except Err Secret × σ × List CryptoEvent :=
  match es.encryptor with
  | some enc =>
    if 0 < secret.Data.length then
      match enc.Encrypt nonce secret.Data with
      | .error e => (.error (.crypto e), s, [.encryptEv])
      | .ok encryptedData =>
        let r := es.store.UpdateSecret s ctx { secret with Data := encryptedData }
        (r.1, r.2, [.encryptEv])
    else
      let r := es.store.UpdateSecret s ctx secret
      (r.1, r.2, [])
  | none =>
    let r := es.store.UpdateSecret s ctx secret
    (r.1, r.2, [])

/-- `EncryptedStore.DeleteSecret`: pure pass-through. -/
def EncryptedStore.DeleteSecret (es : EncryptedStore σ) (s : σ) (ctx : Ctx)
    (userID secretID : Nat) : Except Err Unit × σ × List CryptoEvent :=
  let r := es.store.DeleteSecret s ctx userID secretID
  (r.1, r.2, [])

/-! ## Token Issuer/Verifier (`auth.JWTManager`)

The JWT library's HS256 signing is modelled by an executable keyed hash over
the claims; time is an explicit `Nat` of seconds.  `GenerateJWT` sets
`ExpiresAt = now + 24h`; `ValidateJWT` accepts exactly the tokens whose
signature matches the manager's key and whose expiry has not passed (jwt/v5
requires `now < exp`), returning the `user_id` claim. -/

/-- `auth.JWTManager`. -/
structure JWTManager where
  jwtKey : Bytes
deriving DecidableEq

/-- `auth.NewJWTManager`. -/
def NewJWTManager (secret : String) : JWTManager := ⟨strBytes secret⟩

/-- `auth.Claims`: the `user_id` claim and the registered `exp` claim. -/
structure Claims where
  userID : Nat
  expiresAt : Nat
deriving DecidableEq

/-- Model of the HS256 signature over the serialized claims. -/
def signClaims (key : Bytes) (c : Claims) : Nat :=
  (key.foldl (fun a b => a * 131 + b) 13 + c.userID * 1000003 +
    c.expiresAt * 257) % 1000000007

/-- A signed token: claims plus signature. -/
structure Token where
  claims : Claims
  sig : Nat
deriving DecidableEq

/-- `JWTManager.GenerateJWT`: expiry is `now + 24*time.Hour`, then sign. -/
def JWTManager.GenerateJWT (j : JWTManager) (now userID : Nat) : Token :=
  let expirationTime := now + 24 * 3600
  let claims : Claims := ⟨userID, expirationTime⟩
  ⟨claims, signClaims j.jwtKey claims⟩

/-- `JWTManager.ValidateJWT`: parsing fails (`InvalidToken`) on a bad
signature or a passed expiry; otherwise the `user_id` claim is returned. -/
def JWTManager.ValidateJWT (j : JWTManager) (now : Nat) (tok : Token) :
    Except Err Nat :=
  if tok.sig = signClaims j.jwtKey tok.claims then
    if now < tok.claims.expiresAt then .ok tok.claims.userID
    else .error .invalidToken
  else .error .invalidToken

/-! ## Invariants and concrete fixtures -/

/-- No secret id is held by two different users of a `MemStore` (reachable
states satisfy this: ids come from the monotone `nextSecretID` counter). -/
def SecretIDsGloballyUnique (s : MemStore) : Prop :=
  ∀ p1 ∈ s.secrets, ∀ p2 ∈ s.secrets, ∀ s1 ∈ p1.2, ∀ s2 ∈ p2.2,
    s1.ID = s2.ID → p1.1 = p2.1

instance (s : MemStore) : Decidable (SecretIDsGloballyUnique s) := by
  unfold SecretIDsGloballyUnique; infer_instance

/-- The encryptor built from the key string `"K"`. -/
def encK : Encryptor := ⟨normalizeKey (strBytes "K")⟩

/-- A fixed standard-size nonce for concrete runs. -/
def nonce0 : Bytes := List.replicate gcmNonceSize 0

/-- A concrete submitted secret with non-empty payload. -/
def sec1 : Secret := ⟨0, 1, .textData, [1], ""⟩

/-- A store already holding the user `alice`. -/
def aliceStore : MemStore :=
  ⟨[("alice", ⟨1, "alice", "h1"⟩)], [], 2, 1⟩

/-- A store where user 1 owns secret 5 and user 2 owns nothing. -/
def twoUserStore : MemStore :=
  ⟨[], [(1, [⟨5, 1, .textData, [1], ""⟩])], 1, 6⟩

/-- A store where user 1 owns secret 5 whose payload is 3 garbage bytes (far
too short to be a valid envelope). -/
def garbageStore : MemStore :=
  ⟨[], [(1, [⟨5, 1, .textData, [1, 2, 3], ""⟩])], 1, 6⟩

/-- An envelope-length byte string that does not authenticate under `encK`. -/
def badCt : Bytes :=
  List.replicate gcmNonceSize 0 ++ List.replicate gcmTagSize 0

/-- A store where user 1 owns secret 5 whose payload is a valid envelope of
the plaintext `[1]` under `encK`. -/
def encStore : MemStore :=
  ⟨[], [(1, [⟨5, 1, .textData,
      nonce0 ++ gcmSeal encK.key nonce0 [1], ""⟩])], 1, 6⟩

/-- `encStore` after the decorator's list loop has written the decrypted
payload back through the aliased slice. -/
def encStoreAfter : MemStore :=
  ⟨[], [(1, [⟨5, 1, .textData, [1], ""⟩])], 1, 6⟩

/-! # Theorems -/

/-! ## Library lemmas about the model -/

theorem xorKs_length (key nonce : Bytes) (i : Nat) (bs : Bytes) :
    (xorKs key nonce i bs).length = bs.length := by
  induction bs generalizing i with
  | nil => rfl
  | cons b bs ih => simp [xorKs, ih]

theorem xorKs_xorKs (key nonce : Bytes) (i : Nat) (bs : Bytes) :
    xorKs key nonce i (xorKs key nonce i bs) = bs := by
  induction bs generalizing i with
  | nil => rfl
  | cons b bs ih =>
    simp [xorKs, ih, Nat.xor_assoc]

theorem gcmTag_length (key nonce ct : Bytes) :
    (gcmTag key nonce ct).length = gcmTagSize := by
  simp [gcmTag]

theorem gcmSeal_length (key nonce pt : Bytes) :
    (gcmSeal key nonce pt).length = pt.length + gcmTagSize := by
  simp [gcmSeal, xorKs_length, gcmTag_length]

theorem gcmOpen_gcmSeal (key nonce pt : Bytes) :
    gcmOpen key nonce (gcmSeal key nonce pt) = some pt := by
  have hlen : (gcmSeal key nonce pt).length = pt.length + gcmTagSize :=
    gcmSeal_length key nonce pt
  have hct : (xorKs key nonce 0 pt).length = pt.length :=
    xorKs_length key nonce 0 pt
  unfold gcmOpen
  rw [hlen]
  have hnot : ¬ pt.length + gcmTagSize < gcmTagSize := by omega
  simp only [hnot, if_false]
  have hsub : pt.length + gcmTagSize - gcmTagSize = pt.length := by omega
  rw [hsub]
  unfold gcmSeal
  simp only []
  rw [← hct, List.take_left, List.drop_left]
  rw [if_pos rfl, xorKs_xorKs]

/-- Round trip of the `Encryptor` envelope: with a standard-size nonce and a
non-empty plaintext, `Decrypt (Encrypt pt) = pt`, and the ciphertext is the
explicit envelope of length `pt.length + 28`. -/
theorem encrypt_decrypt (e : Encryptor) (nonce pt : Bytes)
    (hn : nonce.length = gcmNonceSize) (hpt : pt ≠ []) :
    e.Encrypt nonce pt = .ok (nonce ++ gcmSeal e.key nonce pt) ∧
    e.Decrypt (nonce ++ gcmSeal e.key nonce pt) = .ok pt ∧
    (nonce ++ gcmSeal e.key nonce pt).length =
      pt.length + gcmNonceSize + gcmTagSize := by
  have hlen0 : pt.length ≠ 0 := by
    intro h; exact hpt (List.eq_nil_of_length_eq_zero h)
  have hseal : (gcmSeal e.key nonce pt).length = pt.length + gcmTagSize :=
    gcmSeal_length e.key nonce pt
  have henvlen : (nonce ++ gcmSeal e.key nonce pt).length =
      pt.length + gcmNonceSize + gcmTagSize := by
    simp [hseal, hn]; omega
  refine ⟨?_, ?_, henvlen⟩
  · simp [Encryptor.Encrypt, hlen0]
  · unfold Encryptor.Decrypt
    rw [henvlen]
    have h1 : ¬ pt.length + gcmNonceSize + gcmTagSize = 0 := by
      simp [gcmNonceSize]
    have h2 : ¬ pt.length + gcmNonceSize + gcmTagSize < gcmNonceSize := by
      omega
    simp only [h1, if_false, h2]
    rw [← hn, List.take_left, List.drop_left, gcmOpen_gcmSeal]

theorem mapGet_mapPut_self [DecidableEq α] (m : List (α × β)) (k : α) (v : β) :
    mapGet (mapPut m k v) k = some v := by
  induction m with
  | nil => simp [mapGet, mapPut]
  | cons p rest ih =>
    obtain ⟨k2, v2⟩ := p
    by_cases h : k2 = k <;> simp [mapGet, mapPut, h, ih]

theorem mapGet_mem [DecidableEq α] (m : List (α × β)) (k : α) (v : β)
    (h : mapGet m k = some v) : (k, v) ∈ m := by
  induction m with
  | nil => simp [mapGet] at h
  | cons p rest ih =>
    obtain ⟨k2, v2⟩ := p
    by_cases hk : k2 = k
    · subst hk
      simp [mapGet] at h
      subst h
      exact List.mem_cons_self _ _
    · simp [mapGet, hk] at h
      exact List.mem_cons_of_mem _ (ih h)

theorem findSecret_eq_none (l : List Secret) (sid : Nat)
    (h : ∀ sec ∈ l, sec.ID ≠ sid) : findSecret l sid = none := by
  induction l with
  | nil => rfl
  | cons sec rest ih =>
    have hs : sec.ID ≠ sid := h sec (List.mem_cons_self _ _)
    simp [findSecret, hs]
    exact ih (fun x hx => h x (List.mem_cons_of_mem _ hx))

theorem findSecret_append (l1 l2 : List Secret) (sid : Nat)
    (h : ∀ sec ∈ l1, sec.ID ≠ sid) :
    findSecret (l1 ++ l2) sid = findSecret l2 sid := by
  induction l1 with
  | nil => rfl
  | cons sec rest ih =>
    have hs : sec.ID ≠ sid := h sec (List.mem_cons_self _ _)
    simp [findSecret, hs]
    exact ih (fun x hx => h x (List.mem_cons_of_mem _ hx))

theorem updateSecretInList_eq_none (l : List Secret) (new : Secret)
    (h : ∀ sec ∈ l, sec.ID ≠ new.ID) : updateSecretInList l new = none := by
  induction l with
  | nil => rfl
  | cons sec rest ih =>
    have hs : sec.ID ≠ new.ID := h sec (List.mem_cons_self _ _)
    simp [updateSecretInList, hs]
    rw [ih (fun x hx => h x (List.mem_cons_of_mem _ hx))]

theorem deleteSecretInList_eq_none (l : List Secret) (sid : Nat)
    (h : ∀ sec ∈ l, sec.ID ≠ sid) : deleteSecretInList l sid = none := by
  induction l with
  | nil => rfl
  | cons sec rest ih =>
    have hs : sec.ID ≠ sid := h sec (List.mem_cons_self _ _)
    simp [deleteSecretInList, hs]
    rw [ih (fun x hx => h x (List.mem_cons_of_mem _ hx))]

theorem decryptLoop_none (l : List Secret) :
    decryptLoop none l = (.ok l, l, false, []) := by
  induction l with
  | nil => rfl
  | cons sec rest ih => simp [decryptLoop, decryptOne, ih]

theorem decryptLoop_ok_written (enc? : Option Encryptor) (l : List Secret)
    (L w : List Secret) (b : Bool) (evs : List CryptoEvent)
    (h : decryptLoop enc? l = (.ok L, w, b, evs)) : w = L := by
  induction l generalizing L w b evs with
  | nil =>
    simp [decryptLoop] at h
    simp [h.1, h.2.1]
  | cons sec rest ih =>
    unfold decryptLoop at h
    cases hone : decryptOne enc? sec with
    | mk res1 ev =>
      cases res1 with
      | error e => simp [hone] at h
      | ok sec2 =>
        cases hrest : decryptLoop enc? rest with
        | mk res2 rest4 =>
          obtain ⟨rest2, b2, evs2⟩ := rest4
          cases res2 with
          | error e => simp [hone, hrest] at h
          | ok restOk =>
            simp [hone, hrest] at h
            obtain ⟨h1, h2, _, _⟩ := h
            rw [← h1, ← h2, ih restOk rest2 b2 evs2 hrest]

theorem decryptLoop_ok_nowrite (enc? : Option Encryptor) (l : List Secret)
    (L w : List Secret) (evs : List CryptoEvent)
    (h : decryptLoop enc? l = (.ok L, w, false, evs)) : L = l := by
  induction l generalizing L w evs with
  | nil =>
    simp [decryptLoop] at h
    simp [h.1]
  | cons sec rest ih =>
    unfold decryptLoop at h
    cases hone : decryptOne enc? sec with
    | mk res1 ev =>
      cases res1 with
      | error e => simp [hone] at h
      | ok sec2 =>
        cases hrest : decryptLoop enc? rest with
        | mk res2 rest4 =>
          obtain ⟨rest2, b2, evs2⟩ := rest4
          cases res2 with
          | error e => simp [hone, hrest] at h
          | ok restOk =>
            simp [hone, hrest] at h
            obtain ⟨h1, _, h3, _⟩ := h
            have hev : ev = [] := h3.2
            have hb2 : b2 = false := h3.1
            have hsec : sec2 = sec := by
              unfold decryptOne at hone
              cases enc? with
              | none => simp at hone; exact hone.1.symm
              | some enc =>
                dsimp only at hone
                by_cases hd : 0 < sec.Data.length
                · rw [if_pos hd] at hone
                  cases hdec : enc.Decrypt sec.Data with
                  | error e => rw [hdec] at hone; simp at hone
                  | ok d => rw [hdec, hev] at hone; simp at hone
                · rw [if_neg hd] at hone
                  simp at hone
                  exact hone.1.symm
            rw [← h1, hsec, ih restOk rest2 evs2 (by rw [hrest, hb2])]

theorem decryptLoop_error_first (enc : Encryptor) (l1 l2 : List Secret)
    (sec : Secret) (e2 : CryptoErr)
    (h1 : ∀ x ∈ l1, x.Data = [] ∨ ∃ y, enc.Decrypt x.Data = .ok y)
    (hd : sec.Data ≠ []) (he : enc.Decrypt sec.Data = .error e2) :
    (decryptLoop (some enc) (l1 ++ sec :: l2)).1 = .error (.crypto e2) := by
  induction l1 with
  | nil =>
    have hlen : 0 < sec.Data.length := List.length_pos.mpr hd
    simp [decryptLoop, decryptOne, hlen, he]
  | cons x rest ih =>
    have hx := h1 x (List.mem_cons_self _ _)
    have ihr := ih (fun z hz => h1 z (List.mem_cons_of_mem _ hz))
    have hone : ∃ y ev, decryptOne (some enc) x = (.ok y, ev) := by
      cases hx with
      | inl hempty =>
        refine ⟨x, [], ?_⟩
        simp [decryptOne, hempty]
      | inr hok =>
        obtain ⟨y, hy⟩ := hok
        have hxlen : 0 < x.Data.length := by
          by_contra hc
          have : x.Data = [] := by
            cases hxd : x.Data with
            | nil => rfl
            | cons a b => rw [hxd] at hc; simp at hc
          rw [this] at hy
          simp [Encryptor.Decrypt] at hy
        refine ⟨{ x with Data := y }, [.decryptEv], ?_⟩
        simp [decryptOne, hxlen, hy]
    obtain ⟨y, ev, hone⟩ := hone
    rw [List.cons_append]
    unfold decryptLoop
    rw [hone]
    cases hrest : decryptLoop (some enc) (rest ++ sec :: l2) with
    | mk res2 rest4 =>
      obtain ⟨rest2, b2, evs2⟩ := rest4
      cases res2 with
      | error e3 =>
        have : e3 = Err.crypto e2 := by
          have := ihr
          rw [hrest] at this
          simpa using this
        simp [this]
      | ok restOk =>
        have := ihr
        rw [hrest] at this
        simp at this

/-! ## The claims -/

/-- C2: for every non-empty plaintext `P` and every key string `K` for which
the encryptor is constructed (every non-empty `K`; `NewEncryptor` rejects the
empty string), and every standard-size nonce, encrypting `P` under `K`
succeeds with the nonce-prepended envelope and decrypting that envelope under
the same key succeeds and returns exactly `P`. -/
theorem C2_decrypt_encrypt_roundtrip (key : String) (enc : Encryptor)
    (_hk : NewEncryptor key = .ok enc) (nonce : Bytes)
    (hn : nonce.length = gcmNonceSize) (pt : Bytes) (hpt : pt ≠ []) :
    enc.Encrypt nonce pt = .ok (nonce ++ gcmSeal enc.key nonce pt) ∧
    enc.Decrypt (nonce ++ gcmSeal enc.key nonce pt) = .ok pt := by
  obtain ⟨h1, h2, _⟩ := encrypt_decrypt enc nonce pt hn hpt
  exact ⟨h1, h2⟩

/-- Witness for C2 at key `"K"`, plaintext `[104, 105]`, the all-zero nonce. -/
theorem C2_decrypt_encrypt_roundtrip_witness :
    encK.Encrypt nonce0 [104, 105] =
      .ok (nonce0 ++ gcmSeal encK.key nonce0 [104, 105]) ∧
    encK.Decrypt (nonce0 ++ gcmSeal encK.key nonce0 [104, 105]) =
      .ok [104, 105] :=
  C2_decrypt_encrypt_roundtrip "K" encK (by decide) nonce0 (by decide)
    [104, 105] (by decide)

/-- C7: a token issued for user id `U` at time `t` carries the absolute
expiry `t + 24h`; verifying it with the same signing secret strictly before
that expiry yields exactly `U`, and verifying it once the expiry has passed
fails with `InvalidToken`. -/
theorem C7_token_expiry_roundtrip (secret : String) (U t t2 : Nat) :
    ((NewJWTManager secret).GenerateJWT t U).claims.expiresAt = t + 24 * 3600 ∧
    (t2 < t + 24 * 3600 →
      (NewJWTManager secret).ValidateJWT t2
        ((NewJWTManager secret).GenerateJWT t U) = .ok U) ∧
    (t + 24 * 3600 ≤ t2 →
      (NewJWTManager secret).ValidateJWT t2
        ((NewJWTManager secret).GenerateJWT t U) = .error .invalidToken) := by
  refine ⟨rfl, ?_, ?_⟩
  · intro h
    simp [JWTManager.GenerateJWT, JWTManager.ValidateJWT, h]
  · intro h
    have h2 : ¬ t2 < t + 24 * 3600 := by omega
    simp [JWTManager.GenerateJWT, JWTManager.ValidateJWT, h2]

/-- Witness for C7: user 7, issued at time 0, verified at times 1 (valid)
and 90000 (past the 86400-second expiry). -/
theorem C7_token_expiry_roundtrip_witness :
    (NewJWTManager "s1").ValidateJWT 1
      ((NewJWTManager "s1").GenerateJWT 0 7) = .ok 7 ∧
    (NewJWTManager "s1").ValidateJWT 90000
      ((NewJWTManager "s1").GenerateJWT 0 7) = .error .invalidToken :=
  ⟨(C7_token_expiry_roundtrip "s1" 7 0 1).2.1 (by decide),
   (C7_token_expiry_roundtrip "s1" 7 0 90000).2.2 (by decide)⟩

/-- C8: constructed with an empty key, the Confidentiality Decorator keeps a
`nil` encryptor, and each of its seven operations returns exactly the backing
port's result and final state (and performs no cryptographic work) for every
state and every argument. -/
theorem C8_empty_key_passthrough {σ : Type} (ops : StoreOps σ) :
    NewEncryptedStore ops "" = .ok ⟨ops, none⟩ ∧
    (∀ s ctx user, EncryptedStore.CreateUser ⟨ops, none⟩ s ctx user =
      ((ops.CreateUser s ctx user).1, (ops.CreateUser s ctx user).2, [])) ∧
    (∀ s ctx login, EncryptedStore.GetUserByLogin ⟨ops, none⟩ s ctx login =
      ((ops.GetUserByLogin s ctx login).1,
        (ops.GetUserByLogin s ctx login).2, [])) ∧
    (∀ s ctx nonce secret,
      EncryptedStore.CreateSecret ⟨ops, none⟩ s ctx nonce secret =
      ((ops.CreateSecret s ctx secret).1,
        (ops.CreateSecret s ctx secret).2, [])) ∧
    (∀ s ctx userID, EncryptedStore.GetSecrets ⟨ops, none⟩ s ctx userID =
      ((ops.GetSecrets s ctx userID).1,
        (ops.GetSecrets s ctx userID).2, [])) ∧
    (∀ s ctx userID secretID,
      EncryptedStore.GetSecretByID ⟨ops, none⟩ s ctx userID secretID =
      ((ops.GetSecretByID s ctx userID secretID).1,
        (ops.GetSecretByID s ctx userID secretID).2, [])) ∧
    (∀ s ctx nonce secret,
      EncryptedStore.UpdateSecret ⟨ops, none⟩ s ctx nonce secret =
      ((ops.UpdateSecret s ctx secret).1,
        (ops.UpdateSecret s ctx secret).2, [])) ∧
    (∀ s ctx userID secretID,
      EncryptedStore.DeleteSecret ⟨ops, none⟩ s ctx userID secretID =
      ((ops.DeleteSecret s ctx userID secretID).1,
        (ops.DeleteSecret s ctx userID secretID).2, [])) := by
  refine ⟨rfl, fun s ctx user => rfl, fun s ctx login => rfl,
    fun s ctx nonce secret => rfl, ?_, ?_, fun s ctx nonce secret => rfl,
    fun s ctx userID secretID => rfl⟩
  · intro s ctx userID
    unfold EncryptedStore.GetSecrets
    cases h : (ops.GetSecrets s ctx userID).1 with
    | error e => simp [h]
    | ok secrets => simp [h, decryptLoop_none]
  · intro s ctx userID secretID
    unfold EncryptedStore.GetSecretByID
    cases h : (ops.GetSecretByID s ctx userID secretID).1 with
    | error e => simp [h]
    | ok secret => simp [h, decryptOne]

/-- C6-counterexample: with encryption enabled over the in-memory backend, a
first `list_secrets` on a store holding one valid envelope succeeds with the
decrypted payload, but writes that decrypted payload back into the backing
store (the returned slice aliases the map's own slice), so the store is
mutated to plaintext and an immediate second call fails with the crypto
error instead of succeeding with the same sequence. -/
theorem C6_counterexample :
    (EncryptedStore.GetSecrets ⟨memStoreOps, some encK⟩ encStore
        .live 1).1 = .ok [⟨5, 1, .textData, [1], ""⟩] ∧
    (EncryptedStore.GetSecrets ⟨memStoreOps, some encK⟩ encStore
        .live 1).2.1 = encStoreAfter ∧
    encStoreAfter ≠ encStore ∧
    (EncryptedStore.GetSecrets ⟨memStoreOps, some encK⟩ encStoreAfter
        .live 1).1 = .error (.crypto .tooShort) := by
  refine ⟨?_, ?_, ?_, ?_⟩
  · decide
  · decide
  · decide
  · decide

/-- C6-amended: with encryption enabled over the in-memory backend,
`list_secrets` through the Confidentiality Decorator is not read-only: when a
call for a user whose stored slice is `l` succeeds with decrypted sequence
`L`, either some payload was decrypted and the backing store afterwards holds
exactly `L` (the decrypted payloads, no longer the envelopes) in that user's
slice, or no payload was decrypted at all and the store is unchanged with
`L = l`. -/
theorem C6_list_secrets_writes_back (enc : Encryptor) (s : MemStore)
    (userID : Nat) (l L : List Secret) (s2 : MemStore)
    (tr : List CryptoEvent)
    (hm : mapGet s.secrets userID = some l)
    (hcall : EncryptedStore.GetSecrets ⟨memStoreOps, some enc⟩ s .live
      userID = (.ok L, s2, tr)) :
    (s2 = { s with secrets := mapPut s.secrets userID L } ∧
      mapGet s2.secrets userID = some L) ∨
    (s2 = s ∧ L = l) := by
  have hback : MemStore.GetSecrets s .live userID = (.ok l, s) := by
    unfold MemStore.GetSecrets
    rw [show Ctx.err .live = none from rfl, hm]
  unfold EncryptedStore.GetSecrets at hcall
  rw [show (⟨memStoreOps, some enc⟩ :
      EncryptedStore MemStore).store.GetSecrets s .live userID =
      (.ok l, s) from hback] at hcall
  dsimp only at hcall
  cases hd : decryptLoop (some enc) l with
  | mk res rest4 =>
    obtain ⟨written, wrote, evs⟩ := rest4
    rw [hd] at hcall
    cases res with
    | error e => simp at hcall
    | ok L2 =>
      cases wrote with
      | false =>
        simp at hcall
        right
        refine ⟨hcall.2.1.symm, ?_⟩
        rw [← hcall.1]
        exact decryptLoop_ok_nowrite (some enc) l L2 written evs hd
      | true =>
        simp [memStoreOps] at hcall
        left
        have hw : written = L2 :=
          decryptLoop_ok_written (some enc) l L2 written true evs hd
        obtain ⟨hL, hs2, _⟩ := hcall
        constructor
        · rw [← hs2, hw, hL]
        · rw [← hs2, hw, hL]
          exact mapGet_mapPut_self s.secrets userID L

/-- Witness for C6-amended on `encStore`: the decrypted payload is written
back, leaving `encStoreAfter` in the backing store. -/
theorem C6_list_secrets_writes_back_witness :
    (encStoreAfter =
      { encStore with
          secrets := mapPut encStore.secrets 1 [⟨5, 1, .textData, [1], ""⟩] } ∧
      mapGet encStoreAfter.secrets 1 = some [⟨5, 1, .textData, [1], ""⟩]) ∨
    (encStoreAfter = encStore ∧
      [(⟨5, 1, .textData, [1], ""⟩ : Secret)] =
        [⟨5, 1, .textData, nonce0 ++ gcmSeal encK.key nonce0 [1], ""⟩]) :=
  C6_list_secrets_writes_back encK encStore 1
    [⟨5, 1, .textData, nonce0 ++ gcmSeal encK.key nonce0 [1], ""⟩]
    [⟨5, 1, .textData, [1], ""⟩] encStoreAfter [.decryptEv]
    (by decide) (by decide)

/-- C5: decryption of a ciphertext too short to contain the nonce fails with
the typed `tooShort` condition; decryption of a ciphertext whose GCM
authentication fails (wrong key or tamper) fails with the typed `openFailed`
condition and never succeeds with corrupted plaintext; the decorator's
`get_secret` surfaces such a failure to the caller as the wrapped crypto
error; the decorator's `list_secrets` also surfaces the crypto error of the
first failing element (earlier elements empty or decrypting fine); and the
wrapped crypto error is distinct from every `SecretNotFound` error. -/
theorem C5_decryption_failure_surfaced :
    (∀ (e : Encryptor) (ct : Bytes), ct ≠ [] → ct.length < gcmNonceSize →
      e.Decrypt ct = .error .tooShort) ∧
    (∀ (e : Encryptor) (ct : Bytes), gcmNonceSize ≤ ct.length →
      gcmOpen e.key (ct.take gcmNonceSize) (ct.drop gcmNonceSize) = none →
      e.Decrypt ct = .error .openFailed) ∧
    (∀ (e : Encryptor) (ct pt : Bytes), gcmNonceSize ≤ ct.length →
      gcmOpen e.key (ct.take gcmNonceSize) (ct.drop gcmNonceSize) = none →
      e.Decrypt ct ≠ .ok pt) ∧
    (∀ (σ : Type) (es : EncryptedStore σ) (s : σ) (ctx : Ctx)
      (userID secretID : Nat) (enc : Encryptor) (secret : Secret) (s2 : σ)
      (e2 : CryptoErr),
      es.encryptor = some enc →
      es.store.GetSecretByID s ctx userID secretID = (.ok secret, s2) →
      secret.Data ≠ [] →
      enc.Decrypt secret.Data = .error e2 →
      es.GetSecretByID s ctx userID secretID =
        (.error (.crypto e2), s2, [.decryptEv])) ∧
    (∀ (σ : Type) (es : EncryptedStore σ) (s : σ) (ctx : Ctx) (userID : Nat)
      (enc : Encryptor) (s2 : σ) (l1 l2 : List Secret) (sec : Secret)
      (e2 : CryptoErr),
      es.encryptor = some enc →
      es.store.GetSecrets s ctx userID = (.ok (l1 ++ sec :: l2), s2) →
      (∀ x ∈ l1, x.Data = [] ∨ ∃ y, enc.Decrypt x.Data = .ok y) →
      sec.Data ≠ [] →
      enc.Decrypt sec.Data = .error e2 →
      (es.GetSecrets s ctx userID).1 = .error (.crypto e2)) ∧
    (∀ (e2 : CryptoErr) (id : Nat), Err.crypto e2 ≠ Err.secretNotFound id) := by
  have hshort : ∀ (e : Encryptor) (ct : Bytes), ct ≠ [] →
      ct.length < gcmNonceSize → e.Decrypt ct = .error .tooShort := by
    intro e ct hne hlt
    have h0 : ct.length ≠ 0 := by
      intro h; exact hne (List.eq_nil_of_length_eq_zero h)
    simp [Encryptor.Decrypt, h0, hlt]
  have hopen : ∀ (e : Encryptor) (ct : Bytes), gcmNonceSize ≤ ct.length →
      gcmOpen e.key (ct.take gcmNonceSize) (ct.drop gcmNonceSize) = none →
      e.Decrypt ct = .error .openFailed := by
    intro e ct hge hnone
    have h0 : ct.length ≠ 0 := by
      have : 0 < gcmNonceSize := by decide
      omega
    have h2 : ¬ ct.length < gcmNonceSize := by omega
    simp [Encryptor.Decrypt, h0, h2, hnone]
  refine ⟨hshort, hopen, ?_, ?_, ?_, ?_⟩
  · intro e ct pt hge hnone hok
    rw [hopen e ct hge hnone] at hok
    exact Except.noConfusion hok
  · intro σ es s ctx userID secretID enc secret s2 e2 henc hget hne hdec
    have hlen : 0 < secret.Data.length := List.length_pos.mpr hne
    unfold EncryptedStore.GetSecretByID
    rw [hget]
    simp [decryptOne, henc, hlen, hdec]
  · intro σ es s ctx userID enc s2 l1 l2 sec e2 henc hget hprev hne hdec
    have hloop := decryptLoop_error_first enc l1 l2 sec e2 hprev hne hdec
    unfold EncryptedStore.GetSecrets
    rw [hget]
    dsimp only
    rw [henc]
    cases hd : decryptLoop (some enc) (l1 ++ sec :: l2) with
    | mk res rest4 =>
      obtain ⟨written, wrote, evs⟩ := rest4
      rw [hd] at hloop
      simp at hloop
      rw [hloop]
  · intro e2 id h
    exact Err.noConfusion h

/-- Witness for C5: a 3-byte ciphertext is rejected as too short; an
unauthenticated 28-byte envelope is rejected by `gcm.Open`; the decorator
over `garbageStore` (user 1, secret 5 holds 3 garbage bytes) surfaces the
crypto error through both `get_secret` and `list_secrets`, not
`SecretNotFound`. -/
theorem C5_decryption_failure_surfaced_witness :
    encK.Decrypt [1, 2, 3] = .error .tooShort ∧
    encK.Decrypt badCt = .error .openFailed ∧
    EncryptedStore.GetSecretByID ⟨memStoreOps, some encK⟩ garbageStore
      .live 1 5 =
      (.error (.crypto .tooShort), garbageStore, [.decryptEv]) ∧
    (EncryptedStore.GetSecrets ⟨memStoreOps, some encK⟩ garbageStore
      .live 1).1 = .error (.crypto .tooShort) ∧
    Err.crypto .tooShort ≠ Err.secretNotFound 5 :=
  ⟨C5_decryption_failure_surfaced.1 encK [1, 2, 3] (by decide) (by decide),
   C5_decryption_failure_surfaced.2.1 encK badCt (by decide) (by decide),
   C5_decryption_failure_surfaced.2.2.2.1 MemStore
     ⟨memStoreOps, some encK⟩ garbageStore .live 1 5 encK
     ⟨5, 1, .textData, [1, 2, 3], ""⟩ garbageStore .tooShort rfl (by decide)
     (by decide) (by decide),
   C5_decryption_failure_surfaced.2.2.2.2.1 MemStore
     ⟨memStoreOps, some encK⟩ garbageStore .live 1 encK garbageStore
     [] [] ⟨5, 1, .textData, [1, 2, 3], ""⟩ .tooShort rfl (by decide)
     (by simp) (by decide) (by decide),
   C5_decryption_failure_surfaced.2.2.2.2.2 .tooShort 5⟩

/-- C3: for distinct users `A` and `B`, when a secret with id `S` is owned by
`A` (and secret ids are globally unique, as the monotone counter guarantees),
`get_secret`, `update_secret` and `delete_secret` acting as `B` on id `S` all
fail with `SecretNotFound S`, leave the store untouched, and return the very
same error value produced for an id that exists for no user at all. -/
theorem C3_cross_user_indistinguishable (s : MemStore) (A B S : Nat)
    (lA : List Secret) (hAB : A ≠ B) (hUniq : SecretIDsGloballyUnique s)
    (hA : mapGet s.secrets A = some lA)
    (hOwn : ∃ secA ∈ lA, secA.ID = S) :
    MemStore.GetSecretByID s .live B S = (.error (.secretNotFound S), s) ∧
    (∀ secret : Secret, secret.UserID = B → secret.ID = S →
      MemStore.UpdateSecret s .live secret =
        (.error (.secretNotFound S), s)) ∧
    MemStore.DeleteSecret s .live B S = (.error (.secretNotFound S), s) ∧
    (∀ t : MemStore, (∀ p ∈ t.secrets, ∀ sec ∈ p.2, sec.ID ≠ S) →
      MemStore.GetSecretByID t .live B S = (.error (.secretNotFound S), t)) := by
  obtain ⟨secA, hmemA, hidA⟩ := hOwn
  have hNotB : ∀ lB, mapGet s.secrets B = some lB →
      ∀ sec ∈ lB, sec.ID ≠ S := by
    intro lB hB sec hmemB hid
    have hmA : (A, lA) ∈ s.secrets := mapGet_mem _ _ _ hA
    have hmB : (B, lB) ∈ s.secrets := mapGet_mem _ _ _ hB
    have := hUniq (A, lA) hmA (B, lB) hmB secA hmemA sec hmemB
      (by rw [hidA, hid])
    exact hAB this
  refine ⟨?_, ?_, ?_, ?_⟩
  · unfold MemStore.GetSecretByID
    cases hB : mapGet s.secrets B with
    | none => rfl
    | some lB =>
      simp [Ctx.err, findSecret_eq_none lB S (hNotB lB hB)]
  · intro secret hUB hIS
    unfold MemStore.UpdateSecret
    rw [hUB, hIS]
    cases hB : mapGet s.secrets B with
    | none => rfl
    | some lB =>
      have hnone : updateSecretInList lB secret = none := by
        apply updateSecretInList_eq_none
        intro sec hmem
        rw [hIS]
        exact hNotB lB hB sec hmem
      simp [Ctx.err, hnone]
  · unfold MemStore.DeleteSecret
    cases hB : mapGet s.secrets B with
    | none => rfl
    | some lB =>
      simp [Ctx.err, deleteSecretInList_eq_none lB S (hNotB lB hB)]
  · intro t ht
    unfold MemStore.GetSecretByID
    cases hB : mapGet t.secrets B with
    | none => rfl
    | some lB =>
      have : ∀ sec ∈ lB, sec.ID ≠ S := by
        intro sec hmem
        exact ht (B, lB) (mapGet_mem _ _ _ hB) sec hmem
      simp [Ctx.err, findSecret_eq_none lB S this]

/-- Witness for C3 on `twoUserStore`: user 1 owns secret 5; user 2's lookups
and mutations on id 5 all report `SecretNotFound 5`, the same error an empty
store reports. -/
theorem C3_cross_user_indistinguishable_witness :
    MemStore.GetSecretByID twoUserStore .live 2 5 =
      (.error (.secretNotFound 5), twoUserStore) ∧
    MemStore.UpdateSecret twoUserStore .live ⟨5, 2, .textData, [9], "m"⟩ =
      (.error (.secretNotFound 5), twoUserStore) ∧
    MemStore.DeleteSecret twoUserStore .live 2 5 =
      (.error (.secretNotFound 5), twoUserStore) ∧
    MemStore.GetSecretByID NewMemStore .live 2 5 =
      (.error (.secretNotFound 5), NewMemStore) := by
  have h := C3_cross_user_indistinguishable twoUserStore 1 2 5
    [⟨5, 1, .textData, [1], ""⟩] (by decide) (by decide) (by decide)
    (by decide)
  exact ⟨h.1, h.2.1 ⟨5, 2, .textData, [9], "m"⟩ rfl rfl, h.2.2.1,
    h.2.2.2 NewMemStore (by decide)⟩

/-- C10: whenever an in-memory backend operation returns an error (a
cancellation error, `UserExists`, `UserNotFound` or `SecretNotFound`), the
returned store — users map, secrets map and both id counters — is exactly
the store the operation was called on. -/
theorem C10_memstore_error_frame :
    (∀ (s : MemStore) (ctx : Ctx) (user : User) (e : Err),
      (MemStore.CreateUser s ctx user).1 = .error e →
      (MemStore.CreateUser s ctx user).2 = s) ∧
    (∀ (s : MemStore) (ctx : Ctx) (login : String) (e : Err),
      (MemStore.GetUserByLogin s ctx login).1 = .error e →
      (MemStore.GetUserByLogin s ctx login).2 = s) ∧
    (∀ (s : MemStore) (ctx : Ctx) (secret : Secret) (e : Err),
      (MemStore.CreateSecret s ctx secret).1 = .error e →
      (MemStore.CreateSecret s ctx secret).2 = s) ∧
    (∀ (s : MemStore) (ctx : Ctx) (userID : Nat) (e : Err),
      (MemStore.GetSecrets s ctx userID).1 = .error e →
      (MemStore.GetSecrets s ctx userID).2 = s) ∧
    (∀ (s : MemStore) (ctx : Ctx) (userID secretID : Nat) (e : Err),
      (MemStore.GetSecretByID s ctx userID secretID).1 = .error e →
      (MemStore.GetSecretByID s ctx userID secretID).2 = s) ∧
    (∀ (s : MemStore) (ctx : Ctx) (secret : Secret) (e : Err),
      (MemStore.UpdateSecret s ctx secret).1 = .error e →
      (MemStore.UpdateSecret s ctx secret).2 = s) ∧
    (∀ (s : MemStore) (ctx : Ctx) (userID secretID : Nat) (e : Err),
      (MemStore.DeleteSecret s ctx userID secretID).1 = .error e →
      (MemStore.DeleteSecret s ctx userID secretID).2 = s) := by
  refine ⟨?_, ?_, ?_, ?_, ?_, ?_, ?_⟩
  · intro s ctx user e h
    unfold MemStore.CreateUser at h ⊢
    cases hctx : ctx.err with
    | some e2 => simp [hctx]
    | none =>
      cases hm : mapGet s.users user.Login with
      | some u => simp [hctx, hm]
      | none => simp [hctx, hm] at h
  · intro s ctx login e h
    unfold MemStore.GetUserByLogin
    cases hctx : ctx.err with
    | some e2 => simp [hctx]
    | none => cases hm : mapGet s.users login <;> simp [hctx, hm]
  · intro s ctx secret e h
    unfold MemStore.CreateSecret at h ⊢
    cases hctx : ctx.err with
    | some e2 => simp [hctx]
    | none => simp [hctx] at h
  · intro s ctx userID e h
    unfold MemStore.GetSecrets
    cases hctx : ctx.err with
    | some e2 => simp [hctx]
    | none => cases hm : mapGet s.secrets userID <;> simp [hctx, hm]
  · intro s ctx userID secretID e h
    unfold MemStore.GetSecretByID
    cases hctx : ctx.err with
    | some e2 => simp [hctx]
    | none =>
      cases hm : mapGet s.secrets userID with
      | none => simp [hctx, hm]
      | some l => cases hf : findSecret l secretID <;> simp [hctx, hm, hf]
  · intro s ctx secret e h
    unfold MemStore.UpdateSecret at h ⊢
    cases hctx : ctx.err with
    | some e2 => simp [hctx]
    | none =>
      cases hm : mapGet s.secrets secret.UserID with
      | none => simp [hctx, hm]
      | some l =>
        cases hu : updateSecretInList l secret with
        | none => simp [hctx, hm, hu]
        | some l2 => simp [hctx, hm, hu] at h
  · intro s ctx userID secretID e h
    unfold MemStore.DeleteSecret at h ⊢
    cases hctx : ctx.err with
    | some e2 => simp [hctx]
    | none =>
      cases hm : mapGet s.secrets userID with
      | none => simp [hctx, hm]
      | some l =>
        cases hd : deleteSecretInList l secretID with
        | none => simp [hctx, hm, hd]
        | some l2 => simp [hctx, hm, hd] at h

/-- Witness for C10: a duplicate `CreateUser`, a cancelled `CreateSecret`, a
not-found `UpdateSecret` and a cross-user `DeleteSecret` each leave their
concrete store unchanged. -/
theorem C10_memstore_error_frame_witness :
    (MemStore.CreateUser aliceStore .live ⟨0, "alice", "h2"⟩).2 =
      aliceStore ∧
    (MemStore.CreateSecret NewMemStore .canceledCtx sec1).2 = NewMemStore ∧
    (MemStore.UpdateSecret NewMemStore .live sec1).2 = NewMemStore ∧
    (MemStore.DeleteSecret twoUserStore .live 2 5).2 = twoUserStore :=
  ⟨C10_memstore_error_frame.1 aliceStore .live ⟨0, "alice", "h2"⟩
     (.userExists "alice") (by decide),
   C10_memstore_error_frame.2.2.1 NewMemStore .canceledCtx sec1
     .canceled (by decide),
   C10_memstore_error_frame.2.2.2.2.2.1 NewMemStore .live sec1
     (.secretNotFound 0) (by decide),
   C10_memstore_error_frame.2.2.2.2.2.2 twoUserStore .live 2 5
     (.secretNotFound 5) (by decide)⟩

/-- C1: with encryption enabled (a key accepted by `NewEncryptor`), creating
a secret with a non-empty payload `P` through the Confidentiality Decorator
delegates a ciphertext different from `P` to the in-memory backing store,
which then holds that ciphertext — and `get_secret` through the decorator for
the same user and the assigned id returns the secret with payload exactly
`P`.  (`hWF` states that the assigned id is fresh for that user's slice, as
the monotone counter guarantees in every reachable state.) -/
theorem C1_encrypted_at_rest (key : String) (enc : Encryptor)
    (_hk : NewEncryptor key = .ok enc) (nonce : Bytes)
    (hn : nonce.length = gcmNonceSize) (s : MemStore) (secret : Secret)
    (hP : secret.Data ≠ [])
    (hWF : ∀ sec ∈ (mapGet s.secrets secret.UserID).getD [],
      sec.ID ≠ s.nextSecretID) :
    ∃ ct s2,
      enc.Encrypt nonce secret.Data = .ok ct ∧
      ct ≠ secret.Data ∧
      EncryptedStore.CreateSecret ⟨memStoreOps, some enc⟩ s .live nonce secret
        = (.ok { secret with ID := s.nextSecretID, Data := ct }, s2,
            [.encryptEv]) ∧
      mapGet s2.secrets secret.UserID =
        some ((mapGet s.secrets secret.UserID).getD [] ++
          [{ secret with ID := s.nextSecretID, Data := ct }]) ∧
      EncryptedStore.GetSecretByID ⟨memStoreOps, some enc⟩ s2 .live
        secret.UserID s.nextSecretID =
        (.ok { secret with ID := s.nextSecretID }, s2, [.decryptEv]) := by
  obtain ⟨henc, hdec, hctlen⟩ := encrypt_decrypt enc nonce secret.Data hn hP
  have hlen : 0 < secret.Data.length := List.length_pos.mpr hP
  set ct := nonce ++ gcmSeal enc.key nonce secret.Data with hct
  have hctne : ct ≠ secret.Data := by
    intro h
    rw [h] at hctlen
    simp only [gcmNonceSize, gcmTagSize] at hctlen
    omega
  set stored : Secret := { secret with ID := s.nextSecretID, Data := ct }
    with hstored
  set old := (mapGet s.secrets secret.UserID).getD [] with hold
  set s2 : MemStore :=
    { s with secrets := mapPut s.secrets secret.UserID (old ++ [stored]),
             nextSecretID := s.nextSecretID + 1 } with hs2
  refine ⟨ct, s2, henc, hctne, ?_, ?_, ?_⟩
  · unfold EncryptedStore.CreateSecret
    dsimp only
    rw [if_pos hlen, henc]
    rfl
  · exact mapGet_mapPut_self s.secrets secret.UserID (old ++ [stored])
  · have hm : mapGet s2.secrets secret.UserID = some (old ++ [stored]) :=
      mapGet_mapPut_self s.secrets secret.UserID (old ++ [stored])
    have hfind : findSecret (old ++ [stored]) s.nextSecretID =
        some stored := by
      rw [findSecret_append old [stored] s.nextSecretID hWF]
      simp [findSecret, hstored]
    have hmget : MemStore.GetSecretByID s2 .live secret.UserID
        s.nextSecretID = (.ok stored, s2) := by
      unfold MemStore.GetSecretByID
      rw [show Ctx.err .live = none from rfl, hm]
      dsimp only
      rw [hfind]
    have hstoredlen : 0 < stored.Data.length := by
      rw [hstored]
      simp only []
      rw [hctlen]
      simp [gcmNonceSize, gcmTagSize]
    unfold EncryptedStore.GetSecretByID
    rw [show (⟨memStoreOps, some enc⟩ :
        EncryptedStore MemStore).store.GetSecretByID s2 .live secret.UserID
        s.nextSecretID = (.ok stored, s2) from hmget]
    simp only [decryptOne, hstoredlen, if_pos]
    rw [hdec]

/-- Witness for C1: key `"K"`, payload `[1]`, the empty store. -/
theorem C1_encrypted_at_rest_witness :
    ∃ ct s2,
      encK.Encrypt nonce0 sec1.Data = .ok ct ∧
      ct ≠ sec1.Data ∧
      EncryptedStore.CreateSecret ⟨memStoreOps, some encK⟩ NewMemStore .live
        nonce0 sec1
        = (.ok { sec1 with ID := NewMemStore.nextSecretID, Data := ct }, s2,
            [.encryptEv]) ∧
      mapGet s2.secrets sec1.UserID =
        some ((mapGet NewMemStore.secrets sec1.UserID).getD [] ++
          [{ sec1 with ID := NewMemStore.nextSecretID, Data := ct }]) ∧
      EncryptedStore.GetSecretByID ⟨memStoreOps, some encK⟩ s2 .live
        sec1.UserID NewMemStore.nextSecretID =
        (.ok { sec1 with ID := NewMemStore.nextSecretID }, s2,
          [.decryptEv]) :=
  C1_encrypted_at_rest "K" encK (by decide) nonce0 (by decide) NewMemStore
    sec1 (by decide) (by decide)

theorem memUpdateSecret_fst_ok (s : MemStore) (ctx : Ctx) (sec r : Secret)
    (h : (MemStore.UpdateSecret s ctx sec).1 = .ok r) : r = sec := by
  unfold MemStore.UpdateSecret at h
  cases hctx : ctx.err with
  | some e => simp [hctx] at h
  | none =>
    cases hm : mapGet s.secrets sec.UserID with
    | none => simp [hctx, hm] at h
    | some l =>
      cases hu : updateSecretInList l sec with
      | none => simp [hctx, hm, hu] at h
      | some l2 =>
        simp [hctx, hm, hu] at h
        exact h.symm

/-- C4-counterexample: with encryption enabled (key `"K"`), creating the
concrete secret `sec1` (payload `[1]`) on the fresh store returns a secret
whose payload is the encryption envelope, not the submitted plaintext — the
claim's predicted return value `{ sec1 with ID := 1 }` is not produced. -/
theorem C4_counterexample :
    (EncryptedStore.CreateSecret ⟨memStoreOps, some encK⟩ NewMemStore .live
        nonce0 sec1).1 ≠ .ok { sec1 with ID := 1 } ∧
    (EncryptedStore.CreateSecret ⟨memStoreOps, some encK⟩ NewMemStore .live
        nonce0 sec1).1 =
      .ok { sec1 with ID := 1, Data := nonce0 ++ gcmSeal encK.key nonce0 sec1.Data } := by
  constructor
  · decide
  · decide

/-- C4-amended: with encryption enabled, for every secret with a non-empty
payload `P`, the decorator's `create_secret` returns the submitted secret
with the id assigned but with its payload replaced by the encryption
envelope (which differs from `P`); a successful `update_secret` likewise
returns the envelope payload.  Encryption is transparent to callers of the
read operations, not of the values returned by the writes. -/
theorem C4_write_returns_envelope (key : String) (enc : Encryptor)
    (_hk : NewEncryptor key = .ok enc) (nonce : Bytes)
    (hn : nonce.length = gcmNonceSize) (s : MemStore) (secret : Secret)
    (hP : secret.Data ≠ []) :
    ∃ ct,
      enc.Encrypt nonce secret.Data = .ok ct ∧
      ct ≠ secret.Data ∧
      (EncryptedStore.CreateSecret ⟨memStoreOps, some enc⟩ s .live nonce
          secret).1 = .ok { secret with ID := s.nextSecretID, Data := ct } ∧
      (∀ (r : Secret) (s2 : MemStore) (tr : List CryptoEvent),
        EncryptedStore.UpdateSecret ⟨memStoreOps, some enc⟩ s .live nonce
          secret = (.ok r, s2, tr) → r = { secret with Data := ct }) := by
  obtain ⟨henc, _, hctlen⟩ := encrypt_decrypt enc nonce secret.Data hn hP
  have hlen : 0 < secret.Data.length := List.length_pos.mpr hP
  set ct := nonce ++ gcmSeal enc.key nonce secret.Data with hct
  have hctne : ct ≠ secret.Data := by
    intro h
    rw [h] at hctlen
    simp only [gcmNonceSize, gcmTagSize] at hctlen
    omega
  refine ⟨ct, henc, hctne, ?_, ?_⟩
  · unfold EncryptedStore.CreateSecret
    dsimp only
    rw [if_pos hlen, henc]
    rfl
  · intro r s2 tr h
    unfold EncryptedStore.UpdateSecret at h
    dsimp only at h
    rw [if_pos hlen, henc] at h
    dsimp only at h
    have h1 : (MemStore.UpdateSecret s .live
        { secret with Data := ct }).1 = .ok r := by
      have := congrArg Prod.fst h
      simpa [memStoreOps] using this
    exact memUpdateSecret_fst_ok _ _ _ _ h1

/-- Witness for C4-amended at key `"K"`, payload `[1]`, the empty store. -/
theorem C4_write_returns_envelope_witness :
    ∃ ct,
      encK.Encrypt nonce0 sec1.Data = .ok ct ∧
      ct ≠ sec1.Data ∧
      (EncryptedStore.CreateSecret ⟨memStoreOps, some encK⟩ NewMemStore .live
          nonce0 sec1).1 =
        .ok { sec1 with ID := NewMemStore.nextSecretID, Data := ct } ∧
      (∀ (r : Secret) (s2 : MemStore) (tr : List CryptoEvent),
        EncryptedStore.UpdateSecret ⟨memStoreOps, some encK⟩ NewMemStore .live
          nonce0 sec1 = (.ok r, s2, tr) → r = { sec1 with Data := ct }) :=
  C4_write_returns_envelope "K" encK (by decide) nonce0 (by decide)
    NewMemStore sec1 (by decide)

/-- C9-counterexample: with encryption enabled, calling the decorator's
`create_secret` under an already-cancelled context still performs
cryptographic work (the encrypt call is in its event trace), although the
cancellation error is returned and the store is unchanged — refuting "no
cryptographic or backend work is done" as stated. -/
theorem C9_counterexample :
    EncryptedStore.CreateSecret ⟨memStoreOps, some encK⟩ NewMemStore
      .canceledCtx nonce0 sec1 =
      (.error .canceled, NewMemStore, [.encryptEv]) ∧
    [CryptoEvent.encryptEv] ≠ ([] : List CryptoEvent) := by
  constructor
  · decide
  · decide

/-- C9-amended: if the ambient context is already cancelled or expired, every
in-memory backend operation fails fast with the cancellation error and an
unchanged store, and every decorator operation over that backend returns the
same cancellation error with an unchanged store — but the decorator's
`create_secret`/`update_secret` may still have performed encryption first
(their event trace is existentially quantified, not empty). -/
theorem C9_cancelled_ctx_failfast :
    (∀ (s : MemStore) (ctx : Ctx) (e : Err) (user : User), ctx.err = some e →
      MemStore.CreateUser s ctx user = (.error e, s)) ∧
    (∀ (s : MemStore) (ctx : Ctx) (e : Err) (login : String),
      ctx.err = some e →
      MemStore.GetUserByLogin s ctx login = (.error e, s)) ∧
    (∀ (s : MemStore) (ctx : Ctx) (e : Err) (secret : Secret),
      ctx.err = some e →
      MemStore.CreateSecret s ctx secret = (.error e, s)) ∧
    (∀ (s : MemStore) (ctx : Ctx) (e : Err) (userID : Nat),
      ctx.err = some e →
      MemStore.GetSecrets s ctx userID = (.error e, s)) ∧
    (∀ (s : MemStore) (ctx : Ctx) (e : Err) (userID secretID : Nat),
      ctx.err = some e →
      MemStore.GetSecretByID s ctx userID secretID = (.error e, s)) ∧
    (∀ (s : MemStore) (ctx : Ctx) (e : Err) (secret : Secret),
      ctx.err = some e →
      MemStore.UpdateSecret s ctx secret = (.error e, s)) ∧
    (∀ (s : MemStore) (ctx : Ctx) (e : Err) (userID secretID : Nat),
      ctx.err = some e →
      MemStore.DeleteSecret s ctx userID secretID = (.error e, s)) ∧
    (∀ (enc? : Option Encryptor) (s : MemStore) (ctx : Ctx) (e : Err)
      (user : User), ctx.err = some e →
      EncryptedStore.CreateUser ⟨memStoreOps, enc?⟩ s ctx user =
        (.error e, s, [])) ∧
    (∀ (enc? : Option Encryptor) (s : MemStore) (ctx : Ctx) (e : Err)
      (login : String), ctx.err = some e →
      EncryptedStore.GetUserByLogin ⟨memStoreOps, enc?⟩ s ctx login =
        (.error e, s, [])) ∧
    (∀ (enc? : Option Encryptor) (s : MemStore) (ctx : Ctx) (e : Err)
      (nonce : Bytes) (secret : Secret), ctx.err = some e →
      ∃ tr, EncryptedStore.CreateSecret ⟨memStoreOps, enc?⟩ s ctx nonce
        secret = (.error e, s, tr)) ∧
    (∀ (enc? : Option Encryptor) (s : MemStore) (ctx : Ctx) (e : Err)
      (userID : Nat), ctx.err = some e →
      EncryptedStore.GetSecrets ⟨memStoreOps, enc?⟩ s ctx userID =
        (.error e, s, [])) ∧
    (∀ (enc? : Option Encryptor) (s : MemStore) (ctx : Ctx) (e : Err)
      (userID secretID : Nat), ctx.err = some e →
      EncryptedStore.GetSecretByID ⟨memStoreOps, enc?⟩ s ctx userID
        secretID = (.error e, s, [])) ∧
    (∀ (enc? : Option Encryptor) (s : MemStore) (ctx : Ctx) (e : Err)
      (nonce : Bytes) (secret : Secret), ctx.err = some e →
      ∃ tr, EncryptedStore.UpdateSecret ⟨memStoreOps, enc?⟩ s ctx nonce
        secret = (.error e, s, tr)) ∧
    (∀ (enc? : Option Encryptor) (s : MemStore) (ctx : Ctx) (e : Err)
      (userID secretID : Nat), ctx.err = some e →
      EncryptedStore.DeleteSecret ⟨memStoreOps, enc?⟩ s ctx userID
        secretID = (.error e, s, [])) := by
  have hcu : ∀ (s : MemStore) (ctx : Ctx) (e : Err) (user : User),
      ctx.err = some e → MemStore.CreateUser s ctx user = (.error e, s) := by
    intro s ctx e user h
    unfold MemStore.CreateUser
    rw [h]
  have hgu : ∀ (s : MemStore) (ctx : Ctx) (e : Err) (login : String),
      ctx.err = some e →
      MemStore.GetUserByLogin s ctx login = (.error e, s) := by
    intro s ctx e login h
    unfold MemStore.GetUserByLogin
    rw [h]
  have hcs : ∀ (s : MemStore) (ctx : Ctx) (e : Err) (secret : Secret),
      ctx.err = some e →
      MemStore.CreateSecret s ctx secret = (.error e, s) := by
    intro s ctx e secret h
    unfold MemStore.CreateSecret
    rw [h]
  have hgs : ∀ (s : MemStore) (ctx : Ctx) (e : Err) (userID : Nat),
      ctx.err = some e →
      MemStore.GetSecrets s ctx userID = (.error e, s) := by
    intro s ctx e userID h
    unfold MemStore.GetSecrets
    rw [h]
  have hgi : ∀ (s : MemStore) (ctx : Ctx) (e : Err) (userID secretID : Nat),
      ctx.err = some e →
      MemStore.GetSecretByID s ctx userID secretID = (.error e, s) := by
    intro s ctx e userID secretID h
    unfold MemStore.GetSecretByID
    rw [h]
  have hus : ∀ (s : MemStore) (ctx : Ctx) (e : Err) (secret : Secret),
      ctx.err = some e →
      MemStore.UpdateSecret s ctx secret = (.error e, s) := by
    intro s ctx e secret h
    unfold MemStore.UpdateSecret
    rw [h]
  have hds : ∀ (s : MemStore) (ctx : Ctx) (e : Err) (userID secretID : Nat),
      ctx.err = some e →
      MemStore.DeleteSecret s ctx userID secretID = (.error e, s) := by
    intro s ctx e userID secretID h
    unfold MemStore.DeleteSecret
    rw [h]
  refine ⟨hcu, hgu, hcs, hgs, hgi, hus, hds, ?_, ?_, ?_, ?_, ?_, ?_, ?_⟩
  · intro enc? s ctx e user h
    unfold EncryptedStore.CreateUser
    dsimp only [memStoreOps]
    rw [hcu s ctx e user h]
  · intro enc? s ctx e login h
    unfold EncryptedStore.GetUserByLogin
    dsimp only [memStoreOps]
    rw [hgu s ctx e login h]
  · intro enc? s ctx e nonce secret h
    cases enc? with
    | none =>
      refine ⟨[], ?_⟩
      unfold EncryptedStore.CreateSecret
      dsimp only [memStoreOps]
      rw [hcs s ctx e secret h]
    | some enc =>
      by_cases hd : 0 < secret.Data.length
      · have he : enc.Encrypt nonce secret.Data =
            .ok (nonce ++ gcmSeal enc.key nonce secret.Data) := by
          unfold Encryptor.Encrypt
          rw [if_neg (by omega)]
        refine ⟨[.encryptEv], ?_⟩
        unfold EncryptedStore.CreateSecret
        dsimp only [memStoreOps]
        rw [if_pos hd, he]
        dsimp only
        rw [hcs s ctx e _ h]
      · refine ⟨[], ?_⟩
        unfold EncryptedStore.CreateSecret
        dsimp only [memStoreOps]
        rw [if_neg hd]
        rw [hcs s ctx e secret h]
  · intro enc? s ctx e userID h
    unfold EncryptedStore.GetSecrets
    dsimp only [memStoreOps]
    rw [hgs s ctx e userID h]
  · intro enc? s ctx e userID secretID h
    unfold EncryptedStore.GetSecretByID
    dsimp only [memStoreOps]
    rw [hgi s ctx e userID secretID h]
  · intro enc? s ctx e nonce secret h
    cases enc? with
    | none =>
      refine ⟨[], ?_⟩
      unfold EncryptedStore.UpdateSecret
      dsimp only [memStoreOps]
      rw [hus s ctx e secret h]
    | some enc =>
      by_cases hd : 0 < secret.Data.length
      · have he : enc.Encrypt nonce secret.Data =
            .ok (nonce ++ gcmSeal enc.key nonce secret.Data) := by
          unfold Encryptor.Encrypt
          rw [if_neg (by omega)]
        refine ⟨[.encryptEv], ?_⟩
        unfold EncryptedStore.UpdateSecret
        dsimp only [memStoreOps]
        rw [if_pos hd, he]
        dsimp only
        rw [hus s ctx e _ h]
      · refine ⟨[], ?_⟩
        unfold EncryptedStore.UpdateSecret
        dsimp only [memStoreOps]
        rw [if_neg hd]
        rw [hus s ctx e secret h]
  · intro enc? s ctx e userID secretID h
    unfold EncryptedStore.DeleteSecret
    dsimp only [memStoreOps]
    rw [hds s ctx e userID secretID h]

/-- Witness for C9-amended on a cancelled and a deadline-expired context. -/
theorem C9_cancelled_ctx_failfast_witness :
    MemStore.CreateUser NewMemStore .canceledCtx ⟨0, "alice", "h3"⟩ =
      (.error .canceled, NewMemStore) ∧
    MemStore.GetSecrets twoUserStore .deadlineCtx 1 =
      (.error .deadlineExceeded, twoUserStore) ∧
    (∃ tr, EncryptedStore.CreateSecret ⟨memStoreOps, some encK⟩ NewMemStore
      .canceledCtx nonce0 sec1 = (.error .canceled, NewMemStore, tr)) ∧
    EncryptedStore.DeleteSecret ⟨memStoreOps, some encK⟩ twoUserStore
      .canceledCtx 1 5 = (.error .canceled, twoUserStore, []) :=
  ⟨C9_cancelled_ctx_failfast.1 NewMemStore .canceledCtx .canceled
     ⟨0, "alice", "h3"⟩ rfl,
   C9_cancelled_ctx_failfast.2.2.2.1 twoUserStore .deadlineCtx
     .deadlineExceeded 1 rfl,
   C9_cancelled_ctx_failfast.2.2.2.2.2.2.2.2.2.1 (some encK) NewMemStore
     .canceledCtx .canceled nonce0 sec1 rfl,
   C9_cancelled_ctx_failfast.2.2.2.2.2.2.2.2.2.2.2.2.2 (some encK)
     twoUserStore .canceledCtx .canceled 1 5 rfl⟩

end Gophkeeper
